import Mathlib

/-!
# Verification of the `llama-server` artifact cache and assembly engine

A shallow embedding of the repository's core logic:

* `src/backend.rs` / `src/lib.rs` — the `Backend` enum, the `Backends`
  bitflag set (`u32` bitmask, CUDA = 1, HIP = 2) and its platform-filtered
  `available()` / `normalize()` operations;
* `src/build.rs` / `src/lib.rs` — `Build` (a wrapped `u32`), its `Display`
  (`b{number}`) and `FromStr` (leading `b` check, `trim_start_matches('b')`,
  then `u32::from_str`);
* `src/cache.rs` — `Component`, `Instance` (a `BTreeSet<Component>` that
  always contains `Server`), `Cache::download`, `Cache::link`,
  `Cache::list`, `Cache::delete`;
* `src/http.rs` — the streaming download loop and its progress events;
* `src/lib.rs` — `Server::download` orchestration.

Filesystem state is made explicit: the per-build cache directory is a
`BuildFS` value (directories with their file listings, plus archive files),
and each cache operation is a state transition on it that also reports how
many network requests it performed and how many progress events it emitted.
Compile-time platform flags (`cfg!(target_os = ...)`) become `Bool`
parameters.  Archive contents are abstracted by a function
`content : Component → List String` giving the file names an artifact's
archive extracts to, and extraction success by a `Bool` (the zip library is
external to the repository).
-/

/-! ## Backends (`src/backend.rs`, mirrored in `src/lib.rs`) -/

/-- A compute backend (`enum Backend { Cuda, Hip }`). -/
inductive Backend where
  | cuda
  | hip
deriving DecidableEq, Repr

/-- The `Backends` bitflag set is a `u32` bitmask; we model the mask as a
`Nat`.  `CUDA = 1`, `HIP = 1 << 1`. -/
def Backends.CUDA : Nat := 1

/-- The HIP flag bit, `1 << 1`. -/
def Backends.HIP : Nat := 2

/-- An empty `Backends` set (`Backends::empty()`). -/
def Backends.empty : Nat := 0

/-- `Backends::contains(flag)`: bitflags `contains` holds when every bit of
the flag is set in the mask. -/
def Backends.containsFlag (mask flag : Nat) : Bool :=
  mask.land flag = flag

/-- `Backends::available(self)` from `src/lib.rs`: on macOS the result is
always empty; otherwise CUDA is listed first when present, then HIP.
The compile-time `cfg!(target_os = "macos")` is the `macos` parameter. -/
def Backends.available (macos : Bool) (mask : Nat) : List Backend :=
  if macos then []
  else
    (if Backends.containsFlag mask Backends.CUDA then [Backend.cuda] else [])
      ++ (if Backends.containsFlag mask Backends.HIP then [Backend.hip] else [])

/-- The fold in `Server::download` (identical to `Set::normalize` in
`src/backend.rs`): rebuild a mask from the available backends. -/
def Backends.normalize (macos : Bool) (mask : Nat) : Nat :=
  (Backends.available macos mask).foldl
    (fun acc b =>
      acc.lor (match b with
        | Backend.cuda => Backends.CUDA
        | Backend.hip => Backends.HIP))
    Backends.empty

/-! ## Components and instances (`src/cache.rs`) -/

/-- `enum Component { Server, Backend(Backend) }`.  The derived Rust `Ord`
orders `Server` before any `Backend(_)`, and `Cuda` before `Hip`. -/
inductive Component where
  | server
  | backend (b : Backend)
deriving DecidableEq, Repr

/-- The derived Rust `Ord` on `Component` as a numeric rank:
variant order `Server < Backend(Cuda) < Backend(Hip)`. -/
def Component.rank : Component → Nat
  | .server => 0
  | .backend .cuda => 1
  | .backend .hip => 2

/-- `Component::directory`. -/
def Component.directory : Component → String
  | .server => "server"
  | .backend .cuda => "backend-cuda"
  | .backend .hip => "backend-hip"

/-- `Component::archive` (`format!("{}.zip", directory)`). -/
def Component.archiveFile (c : Component) : String :=
  c.directory ++ ".zip"

/-- One step of Rust's `str::trim_start_matches(pat)`: if `pat` is a leading
segment of `s`, return the remainder. -/
def stripOnce : List Char → List Char → Option (List Char)
  | [], s => some s
  | _ :: _, [] => none
  | p :: ps, c :: cs => if p = c then stripOnce ps cs else none

/-- Rust's `str::trim_start_matches(pat)` repeatedly removes the leading
occurrence of `pat`; the fuel bounds the number of removals (each removal
shortens the string, so `s.length` suffices). -/
def stripAll : Nat → List Char → List Char → List Char
  | 0, _, s => s
  | fuel + 1, pat, s =>
    match pat, stripOnce pat s with
    | [], _ => s
    | _ :: _, some rest => stripAll fuel pat rest
    | _ :: _, none => s

/-- `component.directory().trim_start_matches("backend-")` as used by
`Instance::directory`. -/
def Component.strippedDirectory (c : Component) : String :=
  String.mk (stripAll c.directory.toList.length "backend-".toList c.directory.toList)

/-- `BTreeSet<Component>::insert`: keep the list strictly sorted by the
derived order; an already-present element leaves the set unchanged. -/
def btreeInsert (c : Component) : List Component → List Component
  | [] => [c]
  | x :: xs =>
    if c.rank < x.rank then c :: x :: xs
    else if c.rank = x.rank then x :: xs
    else x :: btreeInsert c xs

/-- `Instance::new`: `BTreeSet::from_iter(components)` followed by
`insert(Component::Server)`.  The result is the sorted component set,
always containing `Server`. -/
def instanceComponents (components : List Component) : List Component :=
  btreeInsert Component.server (components.foldl (fun s c => btreeInsert c s) [])

/-- `Instance::directory`: the sorted components' directory names, each with
the `backend-` marker trimmed, joined by `-`. -/
def instanceDirectory (components : List Component) : String :=
  String.intercalate "-" ((instanceComponents components).map Component.strippedDirectory)

/-! ## Build identifiers (`src/build.rs`, duplicated in `src/lib.rs`) -/

/-- `struct Build(u32)`.  The wrapped number is a `Nat`; well-formed values
are below `2^32`, which the parser enforces. -/
structure Build where
  number : Nat
deriving DecidableEq, Repr

/-- `Build::locked`. -/
def Build.locked (n : Nat) : Build := ⟨n⟩

/-- Decimal digits of `n`, least-significant first, computed structurally
(the fuel bounds the recursion depth; `n` itself suffices).  Agrees with
`Nat.digits 10 n`, see `decDigits_eq_digits`. -/
def decDigits : Nat → Nat → List Nat
  | 0, _ => []
  | _ + 1, 0 => []
  | fuel + 1, n + 1 => ((n + 1) % 10) :: decDigits fuel ((n + 1) / 10)

/-- Decimal rendering of a `u32`, as Rust's `Display for u32` produces:
most-significant digit first, `"0"` for zero. -/
def natToChars (n : Nat) : List Char :=
  if n = 0 then ['0']
  else ((decDigits n n).reverse.map fun d => Char.ofNat (48 + d))

/-- `Display for Build`: `write!(f, "b{}", self.0)`. -/
def Build.render (b : Build) : String :=
  String.mk ('b' :: natToChars b.number)

/-- `char::to_digit(10)`: the value of a decimal digit character. -/
def digitVal? (c : Char) : Option Nat :=
  if 48 ≤ c.toNat ∧ c.toNat ≤ 57 then some (c.toNat - 48) else none

/-- The accumulation loop of Rust's integer `FromStr`: consume decimal
digits most-significant first, failing on any non-digit. -/
def parseDigitsAux (acc : Nat) : List Char → Option Nat
  | [] => some acc
  | c :: cs =>
    match digitVal? c with
    | some d => parseDigitsAux (acc * 10 + d) cs
    | none => none

/-- `u32::from_str`: an optional leading `+`, then one or more decimal
digits, with the value required to fit in 32 bits (Rust reports overflow
as a parse error). -/
def parseU32? (cs : List Char) : Option Nat :=
  let body := if cs.head? = some '+' then cs.tail else cs
  if body.isEmpty then none
  else
    (parseDigitsAux 0 body).bind fun v =>
      if v < 4294967296 then some v else none

/-- `FromStr for Build`: reject strings not starting with `b`, then
`trim_start_matches('b')` — note this drops *all* leading `b`s — and parse
the remainder as a `u32`. -/
def buildFromChars (cs : List Char) : Option Build :=
  if cs.head? = some 'b' then
    (parseU32? (cs.dropWhile (· = 'b'))).map Build.locked
  else none

/-- `Build::from_str` on a `String`. -/
def buildFromString (s : String) : Option Build :=
  buildFromChars s.toList

example : buildFromString "b1234" = some (Build.locked 1234) := by decide
example : buildFromString "1234" = none := by decide
example : buildFromString "bb5" = some (Build.locked 5) := by decide
example : buildFromString "b4294967296" = none := by decide
example : instanceDirectory [Component.server] = "server" := by decide
example : instanceDirectory [Component.server, Component.backend Backend.cuda]
    = "server-cuda" := by decide

/-! ## The per-build cache filesystem (`src/cache.rs`)

`Cache` is bound to one build; its root holds component directories,
composite (linked) directories, and transient `.zip` archives.  `BuildFS`
is the state of that root: an association list from directory name to the
names of the regular files inside it (later bindings shadow earlier ones),
plus the set of archive file names present. -/

instance {ε α : Type} [DecidableEq ε] [DecidableEq α] : DecidableEq (Except ε α)
  | .error e, .error f => decidable_of_iff (e = f) (by simp)
  | .error _, .ok _ => isFalse (by simp)
  | .ok _, .error _ => isFalse (by simp)
  | .ok a, .ok b => decidable_of_iff (a = b) (by simp)

structure BuildFS where
  dirs : List (String × List String)
  archives : List String
deriving DecidableEq, Repr

/-- `fs::try_exists` on a directory under the build root. -/
def BuildFS.dirExists (fs : BuildFS) (d : String) : Bool :=
  (fs.dirs.lookup d).isSome

/-- `fs::read_dir` on a directory: the regular files it contains, or `none`
when the directory does not exist (an `io::Error`). -/
def BuildFS.dirFiles (fs : BuildFS) (d : String) : Option (List String) :=
  fs.dirs.lookup d

/-- `fs::File::create` of an archive: creates (or truncates) the file. -/
def BuildFS.createArchive (fs : BuildFS) (a : String) : BuildFS :=
  { fs with archives := a :: fs.archives.filter (· ≠ a) }

/-- `fs::remove_file` of an archive. -/
def BuildFS.removeArchive (fs : BuildFS) (a : String) : BuildFS :=
  { fs with archives := fs.archives.filter (· ≠ a) }

/-- `zip::ZipArchive::extract` into a fresh directory (also covers
`fs::create_dir` + hard-linking when `files` is given explicitly). -/
def BuildFS.createDir (fs : BuildFS) (d : String) (files : List String) : BuildFS :=
  { fs with dirs := (d, files) :: fs.dirs }

/-- `Artifact` (`src/artifact.rs`): the server executable or one backend
bundle. -/
inductive Artifact where
  | server
  | backend (b : Backend)
deriving DecidableEq, Repr

/-- The `match artifact { ... }` mapping at the top of `Cache::download`. -/
def Artifact.component : Artifact → Component
  | .server => Component.server
  | .backend b => Component.backend b

/-- Result of one `Cache::download` call: the outcome, the filesystem
afterwards, the number of network requests performed, and the number of
progress events emitted. -/
structure DlOut where
  result : Except Unit Component
  fs : BuildFS
  requests : Nat
  events : Nat
deriving DecidableEq, Repr

/-- `Cache::download(artifact)` (`src/cache.rs:57-86`):

1. ensure the build root exists (`create_dir_all`, a no-op on `BuildFS`);
2. map the artifact to its component;
3. if the component's extracted directory exists, return immediately with
   no network activity and no progress events;
4. otherwise create the archive file, stream-download into it (one network
   request, `evCount c` progress events forwarded), extract it into the
   component directory, and delete the archive.

`content c` are the files the component's archive extracts to, and
`extractOk` tells whether extraction (the external zip library) succeeds;
on failure the error propagates before `remove_file`, so the archive file
and the absent directory are left as they were. -/
def cacheDownload (content : Component → List String) (evCount : Component → Nat)
    (extractOk : Bool) (a : Artifact) (fs : BuildFS) : DlOut :=
  let c := a.component
  if fs.dirExists c.directory then
    ⟨.ok c, fs, 0, 0⟩
  else
    let fs1 := fs.createArchive c.archiveFile
    if extractOk then
      ⟨.ok c, (fs1.createDir c.directory (content c)).removeArchive c.archiveFile,
        1, evCount c⟩
    else
      ⟨.error (), fs1, 1, evCount c⟩

/-- The inner loop of `Cache::link` for one component: hard-link each file
of the component's directory into the composite directory, skipping any
name already present. -/
def linkFiles (dest : List String) (src : List String) : List String :=
  src.foldl (fun acc f => if acc.contains f then acc else acc ++ [f]) dest

/-- Accumulate the hard-linked files of a composite directory over the
instance's components; `none` when some component directory is missing
(`fs::read_dir` fails with an `io::Error`). -/
def collectLinked (fs : BuildFS) : List Component → List String → Option (List String)
  | [], acc => some acc
  | c :: cs, acc =>
    match fs.dirFiles c.directory with
    | none => none
    | some src => collectLinked fs cs (linkFiles acc src)

/-- The executable name `Cache::link` appends:
`llama-server.exe` on Windows, `llama-server` elsewhere. -/
def exeName (windows : Bool) : String :=
  if windows then "llama-server.exe" else "llama-server"

/-- Result of one `Cache::link` call. -/
structure LinkOut where
  result : Except Unit String
  fs : BuildFS
deriving DecidableEq, Repr

/-- `Cache::link(components)` (`src/cache.rs:88-129`): compute the
instance's canonical directory; if that directory already exists, do
nothing; otherwise create it and hard-link every file of every instance
component into it, skipping names already present.  Either way the
returned path is `<instance dir>/<executable>`. -/
def cacheLink (windows : Bool) (components : List Component) (fs : BuildFS) : LinkOut :=
  let inst := instanceComponents components
  let dname := instanceDirectory components
  let path := dname ++ "/" ++ exeName windows
  if fs.dirExists dname then
    ⟨.ok path, fs⟩
  else
    match collectLinked fs inst [] with
    | none => ⟨.error (), fs⟩
    | some files => ⟨.ok path, fs.createDir dname files⟩

/-- `Cache::delete` (`src/cache.rs:131-134`) acts on the cache root, a
directory per build: `remove_dir_all` of the build's directory.  Modelled
from the documented behaviour of `std`/`tokio` `remove_dir_all`: removing a
path that does not exist fails with a not-found `io::Error`, which
`Cache::delete` propagates. -/
def cacheDelete (buildDirs : List String) (b : Build) : Except Unit (List String) :=
  if b.render ∈ buildDirs then .ok (buildDirs.filter (· ≠ b.render))
  else .error ()

/-- `Cache::list` (`src/cache.rs:26-51`): walk the cache root's entries in
the order the filesystem yields them (`(name, isDir)` pairs), skip
non-directories, parse each name as a `Build`, and silently skip names
that fail to parse.  No sorting is performed. -/
def cacheList (entries : List (String × Bool)) : List Build :=
  entries.filterMap fun e => if e.2 then buildFromChars e.1.toList else none

example :
    cacheList [("b2", true), ("junk", true), ("b1", true), ("b9.zip", false)]
      = [Build.locked 2, Build.locked 1] := by decide

/-! ## Streaming download (`src/http.rs`) -/

/-- A progress event (`http::Progress`). -/
structure Progress where
  downloaded : Nat
  total : Nat
  speed : Nat
deriving DecidableEq, Repr

/-- The chunk loop of `http::download`: after the initial event, one event
per received chunk carrying the running byte count, then the chunk is
written to the sink.  `chunks` are the received chunk sizes in order;
`speed` abstracts the wall-clock-derived rate reported after the `k`-th
chunk.  Returns the emitted events and the bytes written. -/
def dlChunks (speed : Nat → Nat) (total : Nat) :
    Nat → Nat → List Nat → List Progress × Nat
  | _, _, [] => ([], 0)
  | downloaded, k, c :: cs =>
    let d := downloaded + c
    let rest := dlChunks speed total d (k + 1) cs
    (⟨d, total, speed k⟩ :: rest.1, c + rest.2)

/-- `http::download` on a successful transfer: emit the initial event with
`downloaded = 0`, then run the chunk loop, then flush.  `total` is the
`content_length` header or `0` when absent. -/
def httpDownload (speed : Nat → Nat) (total : Nat) (chunks : List Nat) :
    List Progress × Nat :=
  let rest := dlChunks speed total 0 0 chunks
  (⟨0, total, 0⟩ :: rest.1, rest.2)

/-! ## `Server::download` orchestration (`src/lib.rs:38-74`) -/

/-- The (non-process) fields of a returned `Server` value. -/
structure ServerOut where
  build : Build
  backends : Nat
  executable : String
deriving DecidableEq, Repr

/-- Outcome of one `Server::download` call. -/
structure InstallOut where
  result : Except Unit ServerOut
  fs : BuildFS
  requests : Nat
  events : Nat
deriving DecidableEq, Repr

/-- The sequential artifact loop of `Server::download`: call
`Cache::download` for each artifact in order, aborting on the first error
(`?`), accumulating the resulting components, requests and events. -/
def downloadAll (content : Component → List String) (evCount : Component → Nat)
    (extractOk : Bool) (fs : BuildFS) :
    List Artifact → Except Unit (List Component) × BuildFS × Nat × Nat
  | [] => (.ok [], fs, 0, 0)
  | a :: as =>
    let o := cacheDownload content evCount extractOk a fs
    match o.result with
    | .error e => (.error e, o.fs, o.requests, o.events)
    | .ok c =>
      let rest := downloadAll content evCount extractOk o.fs as
      (rest.1.map (c :: ·), rest.2.1, o.requests + rest.2.2.1, o.events + rest.2.2.2)

/-- `Server::download(build, backends)`: the artifact list is `Server`
followed by the available backends; download each in sequence, then link
the accumulated components; the returned `Server` carries the *normalized*
backend set (the `fold` over `backends.available()`). -/
def serverDownload (macos windows : Bool) (content : Component → List String)
    (evCount : Component → Nat) (extractOk : Bool) (build : Build)
    (backends : Nat) (fs : BuildFS) : InstallOut :=
  let artifacts :=
    Artifact.server :: (Backends.available macos backends).map Artifact.backend
  let dl := downloadAll content evCount extractOk fs artifacts
  match dl.1 with
  | .error e => ⟨.error e, dl.2.1, dl.2.2.1, dl.2.2.2⟩
  | .ok components =>
    let link := cacheLink windows components dl.2.1
    match link.result with
    | .error e => ⟨.error e, link.fs, dl.2.2.1, dl.2.2.2⟩
    | .ok path =>
      ⟨.ok ⟨build, Backends.normalize macos backends, path⟩,
        link.fs, dl.2.2.1, dl.2.2.2⟩

example : Build.render (Build.locked 1234) = "b1234" := by decide
example : Build.render (Build.locked 0) = "b0" := by decide

/-! ## Lemmas: decimal rendering and parsing (claim C4) -/

theorem decDigits_eq_digits (fuel : Nat) :
    ∀ n : Nat, n ≤ fuel → decDigits fuel n = Nat.digits 10 n := by
  induction fuel with
  | zero =>
    intro n hn
    have : n = 0 := Nat.le_zero.mp hn
    subst this
    simp [decDigits]
  | succ fuel ih =>
    intro n hn
    cases n with
    | zero => simp [decDigits]
    | succ m =>
      have hdiv : (m + 1) / 10 ≤ fuel := by
        have := Nat.div_lt_self (Nat.succ_pos m) (by norm_num : 1 < 10)
        omega
      rw [Nat.digits_def' (by norm_num : 1 < 10) (Nat.succ_pos m)]
      simp only [decDigits]
      rw [ih _ hdiv]

theorem decDigits_lt_ten {n d : Nat} (h : d ∈ decDigits n n) : d < 10 := by
  rw [decDigits_eq_digits n n (Nat.le_refl n)] at h
  exact Nat.digits_lt_base (by norm_num) h

theorem digitVal_digitChar {d : Nat} (h : d < 10) :
    digitVal? (Char.ofNat (48 + d)) = some d := by
  interval_cases d <;> decide

theorem digitChar_ne_b {d : Nat} (h : d < 10) : Char.ofNat (48 + d) ≠ 'b' := by
  interval_cases d <;> decide

theorem digitChar_ne_plus {d : Nat} (h : d < 10) : Char.ofNat (48 + d) ≠ '+' := by
  interval_cases d <;> decide

theorem parseDigitsAux_map (L : List Nat) :
    ∀ acc : Nat, (∀ d ∈ L, d < 10) →
      parseDigitsAux acc (L.map fun d => Char.ofNat (48 + d))
        = some (L.foldl (fun a d => a * 10 + d) acc) := by
  induction L with
  | nil => intro acc _; rfl
  | cons d L ih =>
    intro acc h
    have hd : d < 10 := h d (List.mem_cons_self d L)
    simp only [List.map_cons, parseDigitsAux, digitVal_digitChar hd, List.foldl_cons]
    exact ih _ fun e he => h e (List.mem_cons_of_mem d he)

theorem foldl_reverse_ofDigits (L : List Nat) :
    ∀ a : Nat, L.reverse.foldl (fun x d => x * 10 + d) a
      = a * 10 ^ L.length + Nat.ofDigits 10 L := by
  induction L with
  | nil => intro a; simp
  | cons d L ih =>
    intro a
    rw [List.reverse_cons, List.foldl_append, ih]
    simp only [List.foldl_cons, List.foldl_nil, List.length_cons, Nat.ofDigits_cons]
    ring

theorem parseDigits_decDigits (n : Nat) :
    parseDigitsAux 0 ((decDigits n n).reverse.map fun d => Char.ofNat (48 + d))
      = some n := by
  rw [parseDigitsAux_map _ 0 (fun d hd => decDigits_lt_ten (List.mem_reverse.mp hd))]
  rw [foldl_reverse_ofDigits]
  rw [decDigits_eq_digits n n (Nat.le_refl n), Nat.ofDigits_digits]
  simp

theorem natToChars_ne_nil (n : Nat) : natToChars n ≠ [] := by
  unfold natToChars
  by_cases h : n = 0
  · simp [h]
  · simp only [h, if_false, ne_eq, List.map_eq_nil_iff, List.reverse_eq_nil_iff]
    intro hcon
    have := decDigits_eq_digits n n (Nat.le_refl n)
    rw [hcon] at this
    exact h ((Nat.digits_eq_nil_iff_eq_zero.mp this.symm))

theorem natToChars_head_digit (n : Nat) :
    ∀ c, (natToChars n).head? = some c → c ≠ 'b' ∧ c ≠ '+' := by
  intro c hc
  unfold natToChars at hc
  by_cases h : n = 0
  · simp [h] at hc
    subst hc
    exact ⟨by decide, by decide⟩
  · simp only [h, if_false] at hc
    rcases hrev : (decDigits n n).reverse with _ | ⟨d, ds⟩
    · rw [hrev] at hc; simp at hc
    · rw [hrev] at hc
      simp only [List.map_cons, List.head?_cons, Option.some_inj] at hc
      have hd : d < 10 := by
        have : d ∈ decDigits n n := List.mem_reverse.mp (hrev ▸ List.mem_cons_self d ds)
        exact decDigits_lt_ten this
      subst hc
      exact ⟨digitChar_ne_b hd, digitChar_ne_plus hd⟩

theorem dropWhile_b_natToChars (n : Nat) :
    (natToChars n).dropWhile (· = 'b') = natToChars n := by
  rcases hl : natToChars n with _ | ⟨c, rest⟩
  · rfl
  · have hc := natToChars_head_digit n c (by rw [hl]; rfl)
    rw [List.dropWhile_cons]
    simp [hc.1]

theorem parseU32_natToChars (n : Nat) (h : n < 4294967296) :
    parseU32? (natToChars n) = some n := by
  by_cases h0 : n = 0
  · subst h0; decide
  · have hhead : ¬ (natToChars n).head? = some '+' := by
      rcases hl : natToChars n with _ | ⟨c, rest⟩
      · simp
      · have hc := natToChars_head_digit n c (by rw [hl]; rfl)
        simp [hc.2]
    have hne : ¬ (natToChars n).isEmpty = true := by
      simp [List.isEmpty_iff, natToChars_ne_nil n]
    simp only [parseU32?, if_neg hhead, if_neg hne]
    unfold natToChars
    rw [if_neg h0, parseDigits_decDigits n]
    simp [h]

theorem buildRender_parse (n : Nat) (h : n < 4294967296) :
    buildFromChars ('b' :: natToChars n) = some (Build.locked n) := by
  unfold buildFromChars
  rw [if_pos (by simp : ('b' :: natToChars n).head? = some 'b')]
  rw [List.dropWhile_cons, if_pos (by simp)]
  rw [dropWhile_b_natToChars, parseU32_natToChars n h]
  rfl

theorem buildFromChars_none_iff (cs : List Char) :
    buildFromChars cs = none
      ↔ cs.head? ≠ some 'b' ∨ parseU32? (cs.dropWhile (· = 'b')) = none := by
  unfold buildFromChars
  by_cases h : cs.head? = some 'b'
  · rw [if_pos h]
    simp [h, Option.map_eq_none']
  · rw [if_neg h]
    simp [h]

/-! ## Lemmas: the instance component set (claims C2, C5) -/

/-- Boolean membership in a component list (the extensional content of the
`BTreeSet` built by `Instance::new`). -/
def memb (c : Component) : List Component → Bool
  | [] => false
  | x :: xs => x = c || memb c xs

theorem memb_iff_mem (c : Component) (l : List Component) :
    memb c l = true ↔ c ∈ l := by
  induction l with
  | nil => simp [memb]
  | cons x xs ih =>
    simp only [memb, Bool.or_eq_true, decide_eq_true_eq, ih, List.mem_cons]
    constructor
    · rintro (h | h)
      · exact Or.inl h.symm
      · exact Or.inr h
    · rintro (h | h)
      · exact Or.inl h.symm
      · exact Or.inr h

/-- The canonical shape of any `BTreeSet<Component>`: since `Component` has
exactly three values, a sorted duplicate-free component list is determined
by three membership flags. -/
def canon3 (s c h : Bool) : List Component :=
  (if s then [Component.server] else [])
    ++ (if c then [Component.backend Backend.cuda] else [])
    ++ (if h then [Component.backend Backend.hip] else [])

theorem btreeInsert_canon3 (x : Component) (s c h : Bool) :
    btreeInsert x (canon3 s c h)
      = canon3 (s || x = Component.server)
          (c || x = Component.backend Backend.cuda)
          (h || x = Component.backend Backend.hip) := by
  rcases x with _ | b
  · cases s <;> cases c <;> cases h <;> rfl
  · cases b <;> cases s <;> cases c <;> cases h <;> rfl

theorem foldl_btreeInsert_canon3 (l : List Component) :
    ∀ s c h : Bool,
      l.foldl (fun st x => btreeInsert x st) (canon3 s c h)
        = canon3 (s || memb Component.server l)
            (c || memb (Component.backend Backend.cuda) l)
            (h || memb (Component.backend Backend.hip) l) := by
  induction l with
  | nil => intro s c h; simp [memb]
  | cons x xs ih =>
    intro s c h
    rw [List.foldl_cons, btreeInsert_canon3, ih]
    simp only [memb, Bool.or_assoc]

theorem instanceComponents_canon (l : List Component) :
    instanceComponents l
      = canon3 true (memb (Component.backend Backend.cuda) l)
          (memb (Component.backend Backend.hip) l) := by
  unfold instanceComponents
  have h0 : ([] : List Component) = canon3 false false false := rfl
  rw [h0, foldl_btreeInsert_canon3, btreeInsert_canon3]
  simp

theorem memb_congr_of_mem_iff {l1 l2 : List Component}
    (h : ∀ c, c ∈ l1 ↔ c ∈ l2) : ∀ c, memb c l1 = memb c l2 := by
  intro c
  by_cases hc : c ∈ l1
  · rw [(memb_iff_mem c l1).mpr hc, (memb_iff_mem c l2).mpr ((h c).mp hc)]
  · have hc2 : ¬ c ∈ l2 := fun hx => hc ((h c).mpr hx)
    rw [Bool.eq_false_iff.mpr fun hx => hc ((memb_iff_mem c l1).mp hx),
      Bool.eq_false_iff.mpr fun hx => hc2 ((memb_iff_mem c l2).mp hx)]

theorem instanceComponents_congr {l1 l2 : List Component}
    (h : ∀ c, c ∈ l1 ↔ c ∈ l2) : instanceComponents l1 = instanceComponents l2 := by
  rw [instanceComponents_canon, instanceComponents_canon,
    memb_congr_of_mem_iff h, memb_congr_of_mem_iff h]

/-- **C2** — component-set determinism: two component collections with the
same elements (in any order) produce the same `Instance` component set, the
same composite directory name, and the same `Cache::link` behaviour (in
particular the same executable path). -/
theorem claim_C2_component_set_determinism (l1 l2 : List Component)
    (windows : Bool) (fs : BuildFS) (h : ∀ c, c ∈ l1 ↔ c ∈ l2) :
    instanceComponents l1 = instanceComponents l2
      ∧ instanceDirectory l1 = instanceDirectory l2
      ∧ cacheLink windows l1 fs = cacheLink windows l2 fs := by
  have hic := instanceComponents_congr h
  have hdir : instanceDirectory l1 = instanceDirectory l2 := by
    unfold instanceDirectory
    rw [hic]
  refine ⟨hic, hdir, ?_⟩
  simp only [cacheLink, hic, hdir]

/-- **C2 witness**: `install(B, {Server, CUDA})` and
`install(B, {CUDA, Server})` resolve to the same composite directory and
link result, at a concrete filesystem. -/
theorem claim_C2_witness :
    instanceComponents [Component.server, Component.backend Backend.cuda]
        = instanceComponents [Component.backend Backend.cuda, Component.server]
      ∧ instanceDirectory [Component.server, Component.backend Backend.cuda]
        = instanceDirectory [Component.backend Backend.cuda, Component.server]
      ∧ cacheLink false [Component.server, Component.backend Backend.cuda]
          ⟨[("server", ["llama-server"]), ("backend-cuda", ["cuda.so"])], []⟩
        = cacheLink false [Component.backend Backend.cuda, Component.server]
          ⟨[("server", ["llama-server"]), ("backend-cuda", ["cuda.so"])], []⟩ :=
  claim_C2_component_set_determinism _ _ false _
    (by intro c; simp [List.mem_cons, or_comm])

/-- **C4 counterexample**: the claim says a string fails to parse exactly
when the one-letter `b` prefix is absent or the remainder after the prefix
is not a non-negative integer.  At `"bb5"` the remainder after the prefix,
`"b5"`, is not a non-negative integer, yet the parse *succeeds* (with value
5), because `trim_start_matches('b')` strips every leading `b`. -/
theorem claim_C4_counterexample :
    ¬ (buildFromChars "bb5".toList = none
        ↔ ("bb5".toList.head? ≠ some 'b' ∨ parseU32? "b5".toList = none)) := by
  decide

/-- **C4 (amended)** — version round-trip: for every `n < 2^32`, parsing
the rendered form of `Build::locked(n)` yields `Build::locked(n)` again;
and a string fails to parse exactly when it does not start with `b` or the
remainder after stripping *all* leading `b`s is not the decimal form of a
non-negative integer below `2^32` (optionally `+`-signed). -/
theorem claim_C4_build_roundtrip :
    (∀ n : Nat, n < 4294967296 →
        buildFromString (Build.render (Build.locked n)) = some (Build.locked n))
      ∧ ∀ cs : List Char,
          buildFromChars cs = none
            ↔ cs.head? ≠ some 'b' ∨ parseU32? (cs.dropWhile (· = 'b')) = none :=
  ⟨fun n h => buildRender_parse n h, buildFromChars_none_iff⟩

/-- **C4 witness**: the round-trip at `n = 1234` (`"b1234"`). -/
theorem claim_C4_witness :
    buildFromString (Build.render (Build.locked 1234)) = some (Build.locked 1234) :=
  claim_C4_build_roundtrip.1 1234 (by decide)

/-- **C5 counterexample**: the claim names the Server-only composite
directory `""` and the Server+CUDA composite directory `cuda`; the code
computes `"server"` and `"server-cuda"` (the `Server` component's own
directory name `server` carries no `backend-` marker, so nothing is
stripped from it and it is joined like any other sorted component). -/
theorem claim_C5_counterexample :
    instanceDirectory [Component.server, Component.backend Backend.cuda]
        = "server-cuda"
      ∧ "server-cuda" ≠ "cuda"
      ∧ instanceDirectory [Component.server] = "server"
      ∧ "server" ≠ "" := by
  decide

/-- **C5 (amended)** — the composite directory name is the instance's
components sorted by their total order (`Server` first, then CUDA, then
HIP), each directory name with its `backend-` marker stripped, joined by
`-`; concretely it is one of `server`, `server-cuda`, `server-hip`,
`server-cuda-hip`, as determined by backend membership alone. -/
theorem claim_C5_composite_name (cs : List Component) :
    instanceDirectory cs
      = if memb (Component.backend Backend.cuda) cs then
          (if memb (Component.backend Backend.hip) cs then "server-cuda-hip"
            else "server-cuda")
        else
          (if memb (Component.backend Backend.hip) cs then "server-hip"
            else "server") := by
  unfold instanceDirectory
  rw [instanceComponents_canon]
  cases memb (Component.backend Backend.cuda) cs
    <;> cases memb (Component.backend Backend.hip) cs <;> decide

/-! ## Lemmas: download progress (claim C8) -/

theorem getLastD_cons (l : List Nat) :
    ∀ a x : Nat, ((a :: l).getLast?).getD x = (l.getLast?).getD a := by
  induction l with
  | nil => intro a x; rfl
  | cons b l ih =>
    intro a x
    rw [List.getLast?_cons_cons, ih b x, ih b a]

theorem dlChunks_written (speed : Nat → Nat) (total : Nat) (chunks : List Nat) :
    ∀ d k : Nat, (dlChunks speed total d k chunks).2 = chunks.sum := by
  induction chunks with
  | nil => intro d k; rfl
  | cons c cs ih =>
    intro d k
    simp only [dlChunks, List.sum_cons, ih]

theorem dlChunks_spec (speed : Nat → Nat) (total : Nat) (chunks : List Nat) :
    ∀ d k : Nat,
      List.Chain' (· ≤ ·) ((dlChunks speed total d k chunks).1.map Progress.downloaded)
        ∧ (∀ p ∈ (dlChunks speed total d k chunks).1, d ≤ p.downloaded)
        ∧ (((dlChunks speed total d k chunks).1.map Progress.downloaded).getLast?).getD d
            = d + chunks.sum := by
  induction chunks with
  | nil => intro d k; exact ⟨List.chain'_nil, by simp [dlChunks], by simp [dlChunks]⟩
  | cons c cs ih =>
    intro d k
    obtain ⟨ihch, ihge, ihlast⟩ := ih (d + c) (k + 1)
    simp only [dlChunks, List.map_cons]
    refine ⟨?_, ?_, ?_⟩
    · rw [List.chain'_cons']
      refine ⟨?_, ihch⟩
      intro b hb
      have hbmem : b ∈ (dlChunks speed total (d + c) (k + 1) cs).1.map
          Progress.downloaded := List.mem_of_mem_head? hb
      obtain ⟨p, hp, hpb⟩ := List.mem_map.mp hbmem
      exact hpb ▸ ihge p hp
    · intro p hp
      rcases List.mem_cons.mp hp with h | h
      · rw [h]; exact Nat.le_add_right d c
      · exact Nat.le_trans (Nat.le_add_right d c) (ihge p h)
    · rw [getLastD_cons, ihlast, List.sum_cons]
      omega

/-- **C8** — progress monotonicity: for a single successful `http::download`
run over the received chunks, the first emitted event carries
`downloaded = 0`, the `downloaded` values are non-decreasing across the
whole event sequence, and the final `downloaded` value equals the number of
bytes written to the destination sink. -/
theorem claim_C8_progress_monotone (speed : Nat → Nat) (total : Nat)
    (chunks : List Nat) :
    (httpDownload speed total chunks).1.head? = some ⟨0, total, 0⟩
      ∧ List.Chain' (· ≤ ·)
          ((httpDownload speed total chunks).1.map Progress.downloaded)
      ∧ ((httpDownload speed total chunks).1.map Progress.downloaded).getLast?
          = some (httpDownload speed total chunks).2 := by
  obtain ⟨hch, hge, hlast⟩ := dlChunks_spec speed total chunks 0 0
  refine ⟨rfl, ?_, ?_⟩
  · simp only [httpDownload, List.map_cons]
    rw [List.chain'_cons']
    refine ⟨?_, hch⟩
    intro b _
    exact Nat.zero_le b
  · simp only [httpDownload, List.map_cons]
    rcases hgl : ((0 : Nat) :: (dlChunks speed total 0 0 chunks).1.map
        Progress.downloaded).getLast? with _ | y
    · exact absurd (List.getLast?_eq_none_iff.mp hgl) (by simp)
    · have hy : y = chunks.sum := by
        have := getLastD_cons
          ((dlChunks speed total 0 0 chunks).1.map Progress.downloaded) 0 0
        rw [hgl] at this
        simp only [Option.getD_some] at this
        rw [this, hlast]
        omega
      rw [hy, dlChunks_written]

/-! ## Claims C9 (listing) and C10 (deletion) -/

/-- **C9 counterexample**: `Cache::list` pushes builds in the order the
filesystem enumerates the cache root's entries and never sorts; when the
filesystem yields `b2` before `b1`, `list()` returns `[B2, B1]`, which is
not in ascending numeric order. -/
theorem claim_C9_counterexample :
    cacheList [("b2", true), ("b1", true)] = [Build.locked 2, Build.locked 1]
      ∧ ¬ List.Chain' (· ≤ ·)
          ((cacheList [("b2", true), ("b1", true)]).map Build.number) := by
  refine ⟨by decide, ?_⟩
  have h : (cacheList [("b2", true), ("b1", true)]).map Build.number = [2, 1] := by
    decide
  rw [h]
  intro hch
  rw [List.chain'_cons] at hch
  exact absurd hch.1 (by omega)

/-- **C9 (amended)** — cache listing: `list()` returns exactly the set of
immediate subdirectories of the cache root whose names parse as a `Build`
(after installing `B1` and `B2`, exactly `{B1, B2}`); entries that are not
directories or whose names fail to parse are skipped silently, with no
error.  The builds are returned in the filesystem's enumeration order,
which is not necessarily ascending numeric order. -/
theorem claim_C9_cache_listing (entries : List (String × Bool)) (b : Build) :
    b ∈ cacheList entries
      ↔ ∃ e ∈ entries, e.2 = true ∧ buildFromChars e.1.toList = some b := by
  unfold cacheList
  rw [List.mem_filterMap]
  constructor
  · rintro ⟨e, he, hparse⟩
    by_cases h2 : e.2 = true
    · rw [if_pos h2] at hparse
      exact ⟨e, he, h2, hparse⟩
    · rw [if_neg h2] at hparse
      exact absurd hparse (by simp)
  · rintro ⟨e, he, h2, hp⟩
    exact ⟨e, he, by rw [if_pos h2]; exact hp⟩

/-- **C10** — deletion is not idempotent: `Cache::delete` runs
`remove_dir_all` on the build's directory and propagates its error with
`?`; when the build's directory is absent the not-found IO error surfaces,
and only a build currently present is deleted without error (and is indeed
gone afterwards). -/
theorem claim_C10_delete_not_idempotent (buildDirs : List String) (b : Build) :
    (¬ b.render ∈ buildDirs → cacheDelete buildDirs b = .error ())
      ∧ (b.render ∈ buildDirs →
          ∃ rest, cacheDelete buildDirs b = .ok rest ∧ ¬ b.render ∈ rest) := by
  constructor
  · intro h
    unfold cacheDelete
    rw [if_neg h]
  · intro h
    unfold cacheDelete
    rw [if_pos h]
    exact ⟨_, rfl, by simp [List.mem_filter]⟩

/-- **C10 witness**: deleting `b2` from a cache holding only `b1` fails;
deleting it from a cache holding `b1` and `b2` succeeds and removes it. -/
theorem claim_C10_witness :
    cacheDelete ["b1"] (Build.locked 2) = .error ()
      ∧ ∃ rest, cacheDelete ["b1", "b2"] (Build.locked 2) = .ok rest
          ∧ ¬ (Build.locked 2).render ∈ rest :=
  ⟨(claim_C10_delete_not_idempotent ["b1"] (Build.locked 2)).1 (by decide),
    (claim_C10_delete_not_idempotent ["b1", "b2"] (Build.locked 2)).2 (by decide)⟩

/-! ## Claim C3 (backend normalization) -/

theorem serverDownload_backends_normalized (macos windows : Bool)
    (content : Component → List String) (evCount : Component → Nat)
    (extractOk : Bool) (build : Build) (backends : Nat) (fs : BuildFS)
    (out : ServerOut)
    (h : (serverDownload macos windows content evCount extractOk
        build backends fs).result = .ok out) :
    out.backends = Backends.normalize macos backends := by
  simp only [serverDownload] at h
  split at h
  · exact absurd h (by simp)
  · split at h
    · exact absurd h (by simp)
    · simp only [Except.ok.injEq] at h
      rw [← h]

/-- **C3** — backend normalization: the `backends` field of any `Server`
value successfully returned by `Server::download` is the normalized,
platform-filtered set (the fold over `backends.available()`), never the raw
requested set; on macOS the available-backend list is empty, so the
normalized set is empty and the artifact loop processes only `Server`. -/
theorem claim_C3_backend_normalization (macos windows : Bool)
    (content : Component → List String) (evCount : Component → Nat)
    (extractOk : Bool) (build : Build) (backends : Nat) (fs : BuildFS)
    (out : ServerOut)
    (h : (serverDownload macos windows content evCount extractOk
        build backends fs).result = .ok out) :
    out.backends = Backends.normalize macos backends
      ∧ (macos = true →
          out.backends = Backends.empty
            ∧ Backends.available macos backends = []) := by
  have hn := serverDownload_backends_normalized macos windows content evCount
    extractOk build backends fs out h
  refine ⟨hn, ?_⟩
  intro hm
  subst hm
  exact ⟨hn, rfl⟩

/-- **C3 witness**: on macOS, downloading with the raw request
`{CUDA, HIP}` (mask 3) returns a Server-only installation whose stored
backend set is empty. -/
theorem claim_C3_witness :
    (⟨Build.locked 1, 0, "server/llama-server"⟩ : ServerOut).backends
        = Backends.normalize true 3
      ∧ (true = true →
          (⟨Build.locked 1, 0, "server/llama-server"⟩ : ServerOut).backends
              = Backends.empty
            ∧ Backends.available true 3 = []) :=
  claim_C3_backend_normalization true false (fun _ => []) (fun _ => 0) true
    (Build.locked 1) 3 ⟨[], []⟩ ⟨Build.locked 1, 0, "server/llama-server"⟩
    (by decide)

/-! ## Lemmas: filesystem primitives -/

theorem dirExists_createDir (fs : BuildFS) (d' : String) (files : List String)
    (d : String) :
    (fs.createDir d' files).dirExists d = ((d == d') || fs.dirExists d) := by
  simp only [BuildFS.dirExists, BuildFS.createDir, List.lookup]
  cases h : d == d'
  · simp
  · simp

theorem dirExists_createArchive (fs : BuildFS) (a d : String) :
    (fs.createArchive a).dirExists d = fs.dirExists d := rfl

theorem dirExists_removeArchive (fs : BuildFS) (a d : String) :
    (fs.removeArchive a).dirExists d = fs.dirExists d := rfl

/-! ## Lemmas: `Cache::download` (claims C1, C7) -/

theorem cacheDownload_hit (content : Component → List String)
    (evCount : Component → Nat) (extractOk : Bool) (a : Artifact) (fs : BuildFS)
    (h : fs.dirExists a.component.directory = true) :
    cacheDownload content evCount extractOk a fs = ⟨.ok a.component, fs, 0, 0⟩ := by
  simp only [cacheDownload]
  rw [if_pos h]

theorem cacheDownload_ok (content : Component → List String)
    (evCount : Component → Nat) (a : Artifact) (fs : BuildFS) :
    (cacheDownload content evCount true a fs).result = .ok a.component
      ∧ (cacheDownload content evCount true a fs).fs.dirExists
          a.component.directory = true := by
  by_cases h : fs.dirExists a.component.directory = true
  · rw [cacheDownload_hit content evCount true a fs h]
    exact ⟨rfl, h⟩
  · simp only [cacheDownload]
    rw [if_neg h, if_pos trivial]
    refine ⟨rfl, ?_⟩
    rw [dirExists_removeArchive, dirExists_createDir]
    simp

theorem cacheDownload_preserves_dir (content : Component → List String)
    (evCount : Component → Nat) (extractOk : Bool) (a : Artifact) (fs : BuildFS)
    (d : String) (h : fs.dirExists d = true) :
    (cacheDownload content evCount extractOk a fs).fs.dirExists d = true := by
  by_cases hh : fs.dirExists a.component.directory = true
  · rw [cacheDownload_hit content evCount extractOk a fs hh]
    exact h
  · simp only [cacheDownload]
    rw [if_neg hh]
    cases extractOk
    · rw [if_neg Bool.false_ne_true]
      exact h
    · rw [if_pos rfl, dirExists_removeArchive, dirExists_createDir,
        dirExists_createArchive, h]
      simp

/-- **C7** — partial-failure recovery in `Cache::download`: starting from a
state where the component is not yet cached, (a) on a failed extraction the
error propagates, the archive file is left behind, no component directory
appears, and one network request was made; (b) a subsequent retry from that
state re-downloads (one more network request) and, succeeding, leaves the
component directory present and the archive deleted; (c) on a directly
successful run the component directory exists and the archive file is
deleted. -/
theorem claim_C7_partial_failure_recovery (content : Component → List String)
    (evCount : Component → Nat) (a : Artifact) (fs : BuildFS)
    (h : fs.dirExists a.component.directory = false) :
    ((cacheDownload content evCount false a fs).result = .error ()
        ∧ a.component.archiveFile ∈ (cacheDownload content evCount false a fs).fs.archives
        ∧ (cacheDownload content evCount false a fs).fs.dirExists
            a.component.directory = false
        ∧ (cacheDownload content evCount false a fs).requests = 1)
      ∧ ((cacheDownload content evCount true a
            (cacheDownload content evCount false a fs).fs).result = .ok a.component
          ∧ (cacheDownload content evCount true a
              (cacheDownload content evCount false a fs).fs).requests = 1
          ∧ (cacheDownload content evCount true a
              (cacheDownload content evCount false a fs).fs).fs.dirExists
              a.component.directory = true
          ∧ ¬ a.component.archiveFile ∈ (cacheDownload content evCount true a
              (cacheDownload content evCount false a fs).fs).fs.archives)
      ∧ ((cacheDownload content evCount true a fs).result = .ok a.component
          ∧ (cacheDownload content evCount true a fs).fs.dirExists
              a.component.directory = true
          ∧ ¬ a.component.archiveFile ∈ (cacheDownload content evCount true a fs).fs.archives) := by
  have hne : ¬ fs.dirExists a.component.directory = true := by
    rw [h]; exact Bool.false_ne_true
  have hfail :
      cacheDownload content evCount false a fs
        = ⟨.error (), fs.createArchive a.component.archiveFile, 1,
            evCount a.component⟩ := by
    simp only [cacheDownload, if_neg hne]
    rw [if_neg Bool.false_ne_true]
  have hne2 : ¬ (fs.createArchive a.component.archiveFile).dirExists
      a.component.directory = true := by
    rw [dirExists_createArchive]; exact hne
  have hsucc : ∀ gs : BuildFS, ¬ gs.dirExists a.component.directory = true →
      cacheDownload content evCount true a gs
        = ⟨.ok a.component,
            ((gs.createArchive a.component.archiveFile).createDir
              a.component.directory (content a.component)).removeArchive
              a.component.archiveFile,
            1, evCount a.component⟩ := by
    intro gs hgs
    simp only [cacheDownload]
    rw [if_neg hgs, if_pos trivial]
  refine ⟨?_, ?_, ?_⟩
  · rw [hfail]
    refine ⟨rfl, ?_, ?_, rfl⟩
    · simp [BuildFS.createArchive]
    · rw [dirExists_createArchive, h]
  · rw [hfail]
    rw [hsucc _ hne2]
    refine ⟨rfl, rfl, ?_, ?_⟩
    · rw [dirExists_removeArchive, dirExists_createDir]
      simp
    · simp [BuildFS.removeArchive, BuildFS.createDir, BuildFS.createArchive]
  · rw [hsucc fs hne]
    refine ⟨rfl, ?_, ?_⟩
    · rw [dirExists_removeArchive, dirExists_createDir]
      simp
    · simp [BuildFS.removeArchive, BuildFS.createDir, BuildFS.createArchive]

/-- **C7 witness**: the failure/retry scenario for the CUDA backend on an
empty cache directory. -/
theorem claim_C7_witness :
    ((cacheDownload (fun _ => ["cuda.so"]) (fun _ => 2) false
        (Artifact.backend Backend.cuda) ⟨[], []⟩).result = .error ()
        ∧ (Artifact.backend Backend.cuda).component.archiveFile
          ∈ (cacheDownload (fun _ => ["cuda.so"]) (fun _ => 2) false
              (Artifact.backend Backend.cuda) ⟨[], []⟩).fs.archives
        ∧ (cacheDownload (fun _ => ["cuda.so"]) (fun _ => 2) false
            (Artifact.backend Backend.cuda) ⟨[], []⟩).fs.dirExists
            (Artifact.backend Backend.cuda).component.directory = false
        ∧ (cacheDownload (fun _ => ["cuda.so"]) (fun _ => 2) false
            (Artifact.backend Backend.cuda) ⟨[], []⟩).requests = 1)
      ∧ ((cacheDownload (fun _ => ["cuda.so"]) (fun _ => 2) true
            (Artifact.backend Backend.cuda)
            (cacheDownload (fun _ => ["cuda.so"]) (fun _ => 2) false
              (Artifact.backend Backend.cuda) ⟨[], []⟩).fs).result
            = .ok (Artifact.backend Backend.cuda).component
          ∧ (cacheDownload (fun _ => ["cuda.so"]) (fun _ => 2) true
              (Artifact.backend Backend.cuda)
              (cacheDownload (fun _ => ["cuda.so"]) (fun _ => 2) false
                (Artifact.backend Backend.cuda) ⟨[], []⟩).fs).requests = 1
          ∧ (cacheDownload (fun _ => ["cuda.so"]) (fun _ => 2) true
              (Artifact.backend Backend.cuda)
              (cacheDownload (fun _ => ["cuda.so"]) (fun _ => 2) false
                (Artifact.backend Backend.cuda) ⟨[], []⟩).fs).fs.dirExists
              (Artifact.backend Backend.cuda).component.directory = true
          ∧ ¬ (Artifact.backend Backend.cuda).component.archiveFile
            ∈ (cacheDownload (fun _ => ["cuda.so"]) (fun _ => 2) true
                (Artifact.backend Backend.cuda)
                (cacheDownload (fun _ => ["cuda.so"]) (fun _ => 2) false
                  (Artifact.backend Backend.cuda) ⟨[], []⟩).fs).fs.archives)
      ∧ ((cacheDownload (fun _ => ["cuda.so"]) (fun _ => 2) true
            (Artifact.backend Backend.cuda) ⟨[], []⟩).result
            = .ok (Artifact.backend Backend.cuda).component
          ∧ (cacheDownload (fun _ => ["cuda.so"]) (fun _ => 2) true
              (Artifact.backend Backend.cuda) ⟨[], []⟩).fs.dirExists
              (Artifact.backend Backend.cuda).component.directory = true
          ∧ ¬ (Artifact.backend Backend.cuda).component.archiveFile
            ∈ (cacheDownload (fun _ => ["cuda.so"]) (fun _ => 2) true
                (Artifact.backend Backend.cuda) ⟨[], []⟩).fs.archives) :=
  claim_C7_partial_failure_recovery (fun _ => ["cuda.so"]) (fun _ => 2)
    (Artifact.backend Backend.cuda) ⟨[], []⟩ (by decide)

/-! ## Lemmas: `Cache::link` (claims C1, C6) -/

theorem mem_linkFiles (src : List String) :
    ∀ (dest : List String) (f : String),
      f ∈ linkFiles dest src ↔ f ∈ dest ∨ f ∈ src := by
  induction src with
  | nil => intro dest f; simp [linkFiles]
  | cons s src ih =>
    intro dest f
    have hstep : linkFiles dest (s :: src)
        = linkFiles (if dest.contains s then dest else dest ++ [s]) src := rfl
    rw [hstep, ih]
    by_cases hc : dest.contains s = true
    · rw [if_pos hc]
      have hs : s ∈ dest := by simpa using hc
      simp only [List.mem_cons]
      constructor
      · rintro (hf | hf)
        · exact Or.inl hf
        · exact Or.inr (Or.inr hf)
      · rintro (hf | hf | hf)
        · exact Or.inl hf
        · exact Or.inl (hf ▸ hs)
        · exact Or.inr hf
    · rw [if_neg hc]
      simp only [List.mem_append, List.mem_cons, List.mem_singleton]
      tauto

theorem collectLinked_spec (fs : BuildFS) (comps : List Component) :
    ∀ acc : List String,
      (∀ c ∈ comps, (fs.dirFiles c.directory).isSome = true) →
      ∃ out, collectLinked fs comps acc = some out
        ∧ ∀ f, f ∈ out
            ↔ f ∈ acc ∨ ∃ c ∈ comps, f ∈ (fs.dirFiles c.directory).getD [] := by
  induction comps with
  | nil =>
    intro acc _
    exact ⟨acc, rfl, fun f => by simp⟩
  | cons c cs ih =>
    intro acc h
    obtain ⟨files, hfiles⟩ := Option.isSome_iff_exists.mp
      (h c (List.mem_cons_self c cs))
    obtain ⟨out, hout, hmem⟩ := ih (linkFiles acc files)
      fun c' hc' => h c' (List.mem_cons_of_mem c hc')
    refine ⟨out, ?_, ?_⟩
    · simp only [collectLinked, hfiles]
      exact hout
    · intro f
      rw [hmem f, mem_linkFiles]
      simp only [List.mem_cons]
      constructor
      · rintro (⟨hf | hf⟩ | ⟨c', hc', hf⟩)
        · exact Or.inl hf
        · exact Or.inr ⟨c, Or.inl rfl, by rw [hfiles]; exact hf⟩
        · exact Or.inr ⟨c', Or.inr hc', hf⟩
      · rintro (hf | ⟨c', hc' | hc', hf⟩)
        · exact Or.inl (Or.inl hf)
        · subst hc'
          rw [hfiles] at hf
          exact Or.inl (Or.inr hf)
        · exact Or.inr ⟨c', hc', hf⟩

theorem cacheLink_existing (windows : Bool) (components : List Component)
    (fs : BuildFS) (h : fs.dirExists (instanceDirectory components) = true) :
    cacheLink windows components fs
      = ⟨.ok (instanceDirectory components ++ "/" ++ exeName windows), fs⟩ := by
  simp only [cacheLink]
  rw [if_pos h]

theorem cacheLink_fresh (windows : Bool) (components : List Component)
    (fs : BuildFS) (hdir : fs.dirExists (instanceDirectory components) = false)
    (h : ∀ c ∈ instanceComponents components,
      (fs.dirFiles c.directory).isSome = true) :
    ∃ files,
      cacheLink windows components fs
          = ⟨.ok (instanceDirectory components ++ "/" ++ exeName windows),
              fs.createDir (instanceDirectory components) files⟩
        ∧ ∀ f, f ∈ files ↔ ∃ c ∈ instanceComponents components,
            f ∈ (fs.dirFiles c.directory).getD [] := by
  obtain ⟨out, hout, hmem⟩ := collectLinked_spec fs (instanceComponents components) [] h
  refine ⟨out, ?_, fun f => by rw [hmem f]; simp⟩
  simp only [cacheLink]
  rw [if_neg (by rw [hdir]; exact Bool.false_ne_true), hout]

/-- **C6 counterexample**: the hard-link-if-absent loop of `Cache::link`
runs only in the branch where the composite directory did *not* already
exist.  With the composite directory `server-cuda` already present but
missing `cuda.so` (an abandoned earlier call), a repeated link call with
the same components returns immediately: the filesystem is unchanged and
the missing file is still absent, so retries do not accumulate missing
links. -/
theorem claim_C6_counterexample :
    (cacheLink false [Component.server, Component.backend Backend.cuda]
        ⟨[("server", ["llama-server", "a.so"]), ("backend-cuda", ["cuda.so"]),
          ("server-cuda", ["llama-server"])], []⟩).fs
      = ⟨[("server", ["llama-server", "a.so"]), ("backend-cuda", ["cuda.so"]),
          ("server-cuda", ["llama-server"])], []⟩
    ∧ "cuda.so" ∈ ((⟨[("server", ["llama-server", "a.so"]),
          ("backend-cuda", ["cuda.so"]), ("server-cuda", ["llama-server"])],
          []⟩ : BuildFS).dirFiles "backend-cuda").getD []
    ∧ ¬ "cuda.so" ∈ (((cacheLink false
          [Component.server, Component.backend Backend.cuda]
          ⟨[("server", ["llama-server", "a.so"]), ("backend-cuda", ["cuda.so"]),
            ("server-cuda", ["llama-server"])], []⟩).fs.dirFiles
          "server-cuda").getD []) := by
  decide

/-- **C6 (amended)** — link idempotence policy: when the composite
directory already exists, `Cache::link` performs no linking at all and
returns the executable path with the filesystem unchanged (an incomplete
composite directory is never repaired); only when the composite directory
does not yet exist does `link` create it and hard-link, for each instance
component in order, each regular file whose name is not already present —
the created directory then holds exactly the union of the component
directories' files. -/
theorem claim_C6_link_accumulation (windows : Bool)
    (components : List Component) (fs : BuildFS) :
    (fs.dirExists (instanceDirectory components) = true →
        cacheLink windows components fs
          = ⟨.ok (instanceDirectory components ++ "/" ++ exeName windows), fs⟩)
      ∧ (fs.dirExists (instanceDirectory components) = false →
          (∀ c ∈ instanceComponents components,
            (fs.dirFiles c.directory).isSome = true) →
          ∃ files,
            cacheLink windows components fs
                = ⟨.ok (instanceDirectory components ++ "/" ++ exeName windows),
                    fs.createDir (instanceDirectory components) files⟩
              ∧ ∀ f, f ∈ files ↔ ∃ c ∈ instanceComponents components,
                  f ∈ (fs.dirFiles c.directory).getD []) :=
  ⟨fun h => cacheLink_existing windows components fs h,
    fun hdir h => cacheLink_fresh windows components fs hdir h⟩

/-- **C6 witness**: both branches at concrete filesystems — a pre-existing
(incomplete) composite directory is returned untouched, and a fresh link
creates the composite directory with the union of the component files. -/
theorem claim_C6_witness :
    (cacheLink false [Component.server, Component.backend Backend.cuda]
        ⟨[("server", ["llama-server"]), ("backend-cuda", ["cuda.so"]),
          ("server-cuda", [])], []⟩
      = ⟨.ok (instanceDirectory [Component.server, Component.backend Backend.cuda]
            ++ "/" ++ exeName false),
          ⟨[("server", ["llama-server"]), ("backend-cuda", ["cuda.so"]),
            ("server-cuda", [])], []⟩⟩)
    ∧ (∃ files,
        cacheLink false [Component.server, Component.backend Backend.cuda]
            ⟨[("server", ["llama-server"]), ("backend-cuda", ["cuda.so"])], []⟩
          = ⟨.ok (instanceDirectory [Component.server, Component.backend Backend.cuda]
                ++ "/" ++ exeName false),
              (⟨[("server", ["llama-server"]), ("backend-cuda", ["cuda.so"])],
                []⟩ : BuildFS).createDir
                (instanceDirectory [Component.server, Component.backend Backend.cuda])
                files⟩
          ∧ ∀ f, f ∈ files
              ↔ ∃ c ∈ instanceComponents
                  [Component.server, Component.backend Backend.cuda],
                  f ∈ ((⟨[("server", ["llama-server"]), ("backend-cuda", ["cuda.so"])],
                    []⟩ : BuildFS).dirFiles c.directory).getD []) :=
  ⟨(claim_C6_link_accumulation false
      [Component.server, Component.backend Backend.cuda]
      ⟨[("server", ["llama-server"]), ("backend-cuda", ["cuda.so"]),
        ("server-cuda", [])], []⟩).1 (by decide),
    (claim_C6_link_accumulation false
      [Component.server, Component.backend Backend.cuda]
      ⟨[("server", ["llama-server"]), ("backend-cuda", ["cuda.so"])], []⟩).2
      (by decide) (by decide)⟩

/-! ## Lemmas: orchestration (claim C1) -/

theorem mem_instanceComponents (l : List Component) (c : Component)
    (h : c ∈ instanceComponents l) : c = Component.server ∨ c ∈ l := by
  rw [instanceComponents_canon] at h
  cases hc : memb (Component.backend Backend.cuda) l <;>
    cases hh : memb (Component.backend Backend.hip) l <;>
    rw [hc, hh] at h <;> simp [canon3] at h
  · exact Or.inl h
  · rcases h with h | h
    · exact Or.inl h
    · exact Or.inr ((memb_iff_mem c l).mp (by rw [h]; exact hh))
  · rcases h with h | h
    · exact Or.inl h
    · exact Or.inr ((memb_iff_mem c l).mp (by rw [h]; exact hc))
  · rcases h with h | h | h
    · exact Or.inl h
    · exact Or.inr ((memb_iff_mem c l).mp (by rw [h]; exact hc))
    · exact Or.inr ((memb_iff_mem c l).mp (by rw [h]; exact hh))

theorem downloadAll_cached (content : Component → List String)
    (evCount : Component → Nat) (extractOk : Bool) (as : List Artifact) :
    ∀ fs : BuildFS, (∀ a ∈ as, fs.dirExists a.component.directory = true) →
      downloadAll content evCount extractOk fs as
        = (.ok (as.map Artifact.component), fs, 0, 0) := by
  induction as with
  | nil => intro fs _; rfl
  | cons a as ih =>
    intro fs h
    have hh := cacheDownload_hit content evCount extractOk a fs
      (h a (List.mem_cons_self a as))
    simp only [downloadAll, hh, ih fs fun a' ha' => h a' (List.mem_cons_of_mem a ha')]
    simp [List.map_cons, Except.map]

theorem downloadAll_ok (content : Component → List String)
    (evCount : Component → Nat) (as : List Artifact) :
    ∀ fs : BuildFS,
      ∃ fs' q v,
        downloadAll content evCount true fs as
            = (.ok (as.map Artifact.component), fs', q, v)
          ∧ (∀ a ∈ as, fs'.dirExists a.component.directory = true)
          ∧ (∀ d, fs.dirExists d = true → fs'.dirExists d = true) := by
  induction as with
  | nil => intro fs; exact ⟨fs, 0, 0, rfl, by simp, fun d h => h⟩
  | cons a as ih =>
    intro fs
    obtain ⟨fs', q, v, heq, hdirs, hmono⟩ := ih (cacheDownload content evCount true a fs).fs
    refine ⟨fs', (cacheDownload content evCount true a fs).requests + q,
      (cacheDownload content evCount true a fs).events + v, ?_, ?_, ?_⟩
    · simp only [downloadAll, (cacheDownload_ok content evCount a fs).1, heq]
      simp [List.map_cons, Except.map]
    · intro a' ha'
      rcases List.mem_cons.mp ha' with h' | h'
      · subst h'
        exact hmono _ (cacheDownload_ok content evCount a' fs).2
      · exact hdirs a' h'
    · intro d hd
      exact hmono d (cacheDownload_preserves_dir content evCount true a fs d hd)

theorem cacheLink_ok (windows : Bool) (components : List Component) (fs : BuildFS)
    (h : ∀ c ∈ instanceComponents components, fs.dirExists c.directory = true) :
    ∃ fs2,
      cacheLink windows components fs
          = ⟨.ok (instanceDirectory components ++ "/" ++ exeName windows), fs2⟩
        ∧ fs2.dirExists (instanceDirectory components) = true
        ∧ ∀ d, fs.dirExists d = true → fs2.dirExists d = true := by
  by_cases hd : fs.dirExists (instanceDirectory components) = true
  · exact ⟨fs, cacheLink_existing windows components fs hd, hd, fun d h' => h'⟩
  · obtain ⟨files, heq, _⟩ := cacheLink_fresh windows components fs
      (Bool.eq_false_iff.mpr hd) (fun c hc => h c hc)
    refine ⟨_, heq, ?_, ?_⟩
    · rw [dirExists_createDir]
      simp
    · intro d h'
      rw [dirExists_createDir, h']
      simp

/-- **C1** — idempotence of `Server::download`: a first call (with all
downloads and extractions succeeding) returns some installation `out`; a
second call with the same build and backend set, starting from the
filesystem the first call left behind, performs zero network requests,
emits zero progress events (every per-artifact `Cache::download` finds the
component's directory already present and returns immediately), leaves the
filesystem unchanged, and returns the very same `out` — in particular the
same executable path. -/
theorem claim_C1_download_idempotent (macos windows : Bool)
    (content : Component → List String) (evCount : Component → Nat)
    (build : Build) (backends : Nat) (fs : BuildFS) :
    ∃ out : ServerOut,
      (serverDownload macos windows content evCount true build backends fs).result
          = .ok out
        ∧ serverDownload macos windows content evCount true build backends
            (serverDownload macos windows content evCount true build backends fs).fs
          = ⟨.ok out,
              (serverDownload macos windows content evCount true build backends fs).fs,
              0, 0⟩ := by
  obtain ⟨fs1, q, v, hdl, hdirs, hmono⟩ := downloadAll_ok content evCount
    (Artifact.server :: (Backends.available macos backends).map Artifact.backend) fs
  have hinstdirs : ∀ c ∈ instanceComponents
      ((Artifact.server :: (Backends.available macos backends).map
        Artifact.backend).map Artifact.component),
      fs1.dirExists c.directory = true := by
    intro c hc
    rcases mem_instanceComponents _ c hc with hs | hmem
    · rw [hs]
      exact hdirs Artifact.server (List.mem_cons_self _ _)
    · obtain ⟨a, ha, hac⟩ := List.mem_map.mp hmem
      rw [← hac]
      exact hdirs a ha
  obtain ⟨fs2, hlink, hlinkdir, hlinkmono⟩ := cacheLink_ok windows
    ((Artifact.server :: (Backends.available macos backends).map
      Artifact.backend).map Artifact.component) fs1 hinstdirs
  have h1 : serverDownload macos windows content evCount true build backends fs
      = ⟨.ok ⟨build, Backends.normalize macos backends,
            instanceDirectory ((Artifact.server ::
              (Backends.available macos backends).map Artifact.backend).map
              Artifact.component) ++ "/" ++ exeName windows⟩,
          fs2, q, v⟩ := by
    simp only [serverDownload]
    rw [hdl]
    dsimp only
    rw [hlink]
  have hdirs2 : ∀ a ∈ Artifact.server ::
      (Backends.available macos backends).map Artifact.backend,
      fs2.dirExists a.component.directory = true :=
    fun a ha => hlinkmono _ (hdirs a ha)
  have h2 : serverDownload macos windows content evCount true build backends fs2
      = ⟨.ok ⟨build, Backends.normalize macos backends,
            instanceDirectory ((Artifact.server ::
              (Backends.available macos backends).map Artifact.backend).map
              Artifact.component) ++ "/" ++ exeName windows⟩,
          fs2, 0, 0⟩ := by
    simp only [serverDownload]
    rw [downloadAll_cached content evCount true _ fs2 hdirs2]
    dsimp only
    rw [cacheLink_existing windows _ fs2 hlinkdir]
  refine ⟨⟨build, Backends.normalize macos backends,
      instanceDirectory ((Artifact.server ::
        (Backends.available macos backends).map Artifact.backend).map
        Artifact.component) ++ "/" ++ exeName windows⟩, ?_, ?_⟩
  · rw [h1]
  · rw [h1]
    dsimp only
    exact h2
